import Mathlib

/-!
Shallow embedding of the Nexus load balancer core (Go sources:
`internal/backend/backend.go`, `internal/pool/pool.go`,
`internal/health/checker.go`, `cmd/nexus/main.go`).

Concurrency primitives (mutexes, atomics) are erased: every operation is
modelled as a pure state transformer executed sequentially.  Go's `uint64`
round-robin counter is a `Nat` reduced modulo `2 ^ 64` exactly where
`atomic.AddUint64` can wrap.  The external forwarding capability
(`httputil.ReverseProxy` + `http.Transport`) is modelled as an oracle
assigning each backend a transport outcome; the passive health-check
transport wrapper (`passiveHealthCheckTransport.RoundTrip`) is embedded
faithfully on top of that oracle.  Go loops (`GetNextPeer`'s scan, the
request handler's retry loop) are translated with an explicit fuel
argument equal to the number of remaining iterations, so the functions
are structurally recursive and evaluate by `decide`.
-/

namespace Nexus

/-- Modulus of Go's `uint64`, used by the pool's atomic counter. -/
def U64 : Nat := 2 ^ 64

/-- `backend.Backend`: endpoint URL plus mutable liveness flag.
The `ReverseProxy` field is an external capability, modelled separately
as a forwarding oracle; the `mux` is erased. -/
structure Backend where
  url : String
  alive : Bool
deriving DecidableEq, Repr

/-- `Backend.SetAlive`: overwrite the liveness flag (lock erased). -/
def Backend.SetAlive (b : Backend) (alive : Bool) : Backend :=
  { b with alive := alive }

/-- `Backend.IsAlive`: read the liveness flag (lock erased). -/
def Backend.IsAlive (b : Backend) : Bool := b.alive

/-- Placeholder backend for out-of-range `getD` reads; every index the
code actually uses is in range, so this value is never selected. -/
def defaultBackend : Backend := { url := "", alive := false }

/-- `pool.ServerPool`: ordered backend registry plus the round-robin
counter `current` (a Go `uint64`, kept below `U64`). -/
structure ServerPool where
  backends : List Backend
  current : Nat
deriving DecidableEq, Repr

/-- `ServerPool.AddBackend`: append a backend to the registry. -/
def ServerPool.AddBackend (s : ServerPool) (b : Backend) : ServerPool :=
  { s with backends := s.backends ++ [b] }

/-- `ServerPool.GetPoolSize`: number of registered backends. -/
def ServerPool.GetPoolSize (s : ServerPool) : Nat := s.backends.length

/-- `ServerPool.NextIndex`: guard against an empty pool, else advance the
`uint64` counter by one (wrapping) and reduce it modulo the pool size.
Returns the chosen starting index together with the updated pool. -/
def ServerPool.NextIndex (s : ServerPool) : Nat × ServerPool :=
  let poolSize := s.backends.length
  if poolSize = 0 then (0, s)
  else
    let cur := (s.current + 1) % U64
    (cur % poolSize, { s with current := cur })

/-- The scan loop inside `ServerPool.GetNextPeer`:
`for i := 0; i < poolSize; i++ { idx := (next+i) % poolSize; ... }`,
with `fuel` the number of remaining iterations (initially `poolSize`).
Returns the index of the first alive backend met, or `none`. -/
def scanGo (bs : List Backend) (next : Nat) : Nat → Nat → Option Nat
  | 0, _ => none
  | fuel + 1, i =>
    let idx := (next + i) % bs.length
    if (bs.getD idx defaultBackend).IsAlive then some idx
    else scanGo bs next fuel (i + 1)

/-- `ServerPool.GetNextPeer`: return `none` on an empty pool; otherwise
advance the counter via `NextIndex`, scan at most `poolSize` positions
for an alive backend, and on success pin `current` to the chosen index.
Returns the selected backend's index (the Go code returns the pointer
`s.backends[idx]`). -/
def ServerPool.GetNextPeer (s : ServerPool) : Option Nat × ServerPool :=
  if s.backends.length = 0 then (none, s)
  else
    let np := s.NextIndex
    match scanGo np.2.backends np.1 np.2.backends.length 0 with
    | some idx => (some idx, { np.2 with current := idx })
    | none => (none, np.2)

/-- Transition notifications logged by the health checker. -/
inductive Notification where
  | recovered
  | failedHealthCheck
deriving DecidableEq, Repr

/-- Per-backend body of `HealthChecker.checkHealth`: compare the probe
result with the current liveness; on a difference, log the transition
and write the new liveness; otherwise do nothing. -/
def checkHealthStep (b : Backend) (alive : Bool) : Backend × Option Notification :=
  let wasAlive := b.IsAlive
  if alive ≠ wasAlive then
    (b.SetAlive alive,
     some (if alive then Notification.recovered else Notification.failedHealthCheck))
  else (b, none)

/-- `HealthChecker.checkHealth`: run one probe pass over a snapshot of
the pool's backends; `probe` models `isBackendAlive` (a TCP dial, an
external effect) as a function of the endpoint. -/
def checkHealth (probe : String → Bool) (backends : List Backend) :
    List (Backend × Option Notification) :=
  backends.map (fun b => checkHealthStep b (probe b.url))

/-- Outcome of one exchange on the underlying transport:
a transport-level error, or a response with its HTTP status code. -/
inductive RTResult where
  | transportError
  | response (status : Nat)
deriving DecidableEq, Repr

/-- `passiveHealthCheckTransport.RoundTrip`: on a transport error, mark
the backend DOWN (the write is guarded by `IsAlive` to avoid repeated
log lines) and propagate the error; on a response with status ≥ 500,
mark the backend DOWN but return the response unchanged and without
error. -/
def RoundTrip (b : Backend) (result : RTResult) : RTResult × Backend :=
  match result with
  | RTResult.transportError =>
      (RTResult.transportError, if b.IsAlive then b.SetAlive false else b)
  | RTResult.response status =>
      (RTResult.response status,
       if 500 ≤ status then b.SetAlive false else b)

/-- `backend.NewBackend`: parse the URL (Go's `url.Parse`, an external
collaborator, modelled as a fallible parse oracle); on success the
backend starts with `Alive: true`. -/
def NewBackend (parse : String → Option String) (urlStr : String) : Option Backend :=
  match parse urlStr with
  | none => none
  | some parsedURL => some { url := parsedURL, alive := true }

/-- The startup loop of `main`: create each configured backend with
`NewBackend` and add it to the pool; a parse failure is fatal (`none`). -/
def buildPool (parse : String → Option String) :
    List String → ServerPool → Option ServerPool
  | [], acc => some acc
  | urlStr :: rest, acc =>
    match NewBackend parse urlStr with
    | none => none
    | some b => buildPool parse rest (acc.AddBackend b)

/-- The static backend list configured in `main`. -/
def backendURLs : List String :=
  ["http://localhost:8081", "http://localhost:8082", "http://localhost:8083"]

/-- The pool `main` has populated just before serving begins. -/
def initialPool (parse : String → Option String) : Option ServerPool :=
  buildPool parse backendURLs { backends := [], current := 0 }

/-- How the request handler ended: it wrote a 503, or it returned after
forwarding to backend `idx` with transport outcome `r`. -/
inductive Served where
  | unavailable
  | proxied (idx : Nat) (r : RTResult)
deriving DecidableEq, Repr

/-- Observable outcome of one request: how it was served, the
`X-Backend-Server` header value (set just before forwarding), and how
many `GetNextPeer` calls and forward attempts were performed. -/
structure DispatchResult where
  served : Served
  backendHeader : Option String
  selections : Nat
  forwards : Nat
deriving DecidableEq, Repr

/-- One forward through backend `idx`'s reverse proxy: run the passive
transport on that backend and write the updated backend back. -/
def ServerPool.forwardTo (s : ServerPool) (idx : Nat) (result : RTResult) :
    RTResult × ServerPool :=
  let rt := RoundTrip (s.backends.getD idx defaultBackend) result
  (rt.1, { s with backends := s.backends.set idx rt.2 })

/-- The request handler's retry loop (`for attempts < maxRetries`),
with `fuel` the number of attempts still allowed (`maxRetries -
attempts`).  Each iteration consumes one attempt and calls
`GetNextPeer`; `nil` peer retries selection while attempts remain, else
answers 503; an alive peer is forwarded to and the handler returns
immediately — there is no loop iteration after a forward.  `fwd` is the
transport oracle giving each backend index its outcome. -/
def dispatchGo (fwd : Nat → RTResult) :
    Nat → ServerPool → Nat → Nat → DispatchResult × ServerPool
  | 0, s, sel, fwds =>
      ({ served := Served.unavailable, backendHeader := none,
         selections := sel, forwards := fwds }, s)
  | fuel + 1, s, sel, fwds =>
      match s.GetNextPeer with
      | (none, s1) =>
          if 0 < fuel then
            dispatchGo fwd fuel s1 (sel + 1) fwds
          else
            ({ served := Served.unavailable, backendHeader := none,
               selections := sel + 1, forwards := fwds }, s1)
      | (some idx, s1) =>
          let peer := s1.backends.getD idx defaultBackend
          if peer.IsAlive then
            let out := s1.forwardTo idx (fwd idx)
            ({ served := Served.proxied idx out.1,
               backendHeader := some peer.url,
               selections := sel + 1, forwards := fwds + 1 }, out.2)
          else
            dispatchGo fwd fuel s1 (sel + 1) fwds

/-- `maxRetries` constant from `main`. -/
def maxRetries : Nat := 3

/-- One full request through the handler. -/
def handleRequest (fwd : Nat → RTResult) (s : ServerPool) :
    DispatchResult × ServerPool :=
  dispatchGo fwd maxRetries s 0 0

/-- `n` consecutive sequential `GetNextPeer` calls, collecting the
returned indices. -/
def selectRun (s : ServerPool) : Nat → List (Option Nat) × ServerPool
  | 0 => ([], s)
  | n + 1 =>
    let p := s.GetNextPeer
    let rest := selectRun p.2 n
    (p.1 :: rest.1, rest.2)

/-! ### Helper lemmas -/

/-- The passive transport returns the transport outcome unchanged. -/
theorem RoundTrip_fst (b : Backend) (r : RTResult) : (RoundTrip b r).1 = r := by
  cases r <;> rfl

/-- `getD` on a list of dead backends yields a dead backend. -/
theorem getD_alive_false (bs : List Backend) (n : Nat)
    (h : ∀ b ∈ bs, b.alive = false) :
    (bs.getD n defaultBackend).alive = false := by
  by_cases hn : n < bs.length
  · rw [List.getD_eq_getElem bs defaultBackend hn]
    exact h _ (List.getElem_mem hn)
  · rw [List.getD_eq_default bs defaultBackend (by omega)]
    rfl

/-- An in-range `getD` read is a member of the list. -/
theorem getD_mem (bs : List Backend) (n : Nat) (hn : n < bs.length) :
    bs.getD n defaultBackend ∈ bs := by
  rw [List.getD_eq_getElem bs defaultBackend hn]
  exact List.getElem_mem hn

/-- If the scan returns an index, that index is in range and the backend
there is alive. -/
theorem scanGo_some (bs : List Backend) (next : Nat) :
    ∀ (fuel i idx : Nat), scanGo bs next fuel i = some idx →
      idx < bs.length ∧ (bs.getD idx defaultBackend).alive = true := by
  intro fuel
  induction fuel with
  | zero => intro i idx h; simp [scanGo] at h
  | succ n ih =>
    intro i idx h
    simp only [scanGo] at h
    split at h
    · rename_i hcond
      simp only [Option.some.injEq] at h
      subst h
      have halive : (bs.getD ((next + i) % bs.length) defaultBackend).alive = true := by
        simpa [Backend.IsAlive] using hcond
      refine ⟨?_, halive⟩
      rcases Nat.eq_zero_or_pos bs.length with h0 | h0
      · exfalso
        rw [List.getD_eq_default bs defaultBackend (by omega)] at halive
        simp [defaultBackend] at halive
      · exact Nat.mod_lt _ h0
    · exact ih _ _ h

/-- If the scan returns `none`, every position it visited is dead. -/
theorem scanGo_none (bs : List Backend) (next : Nat) :
    ∀ (fuel i : Nat), scanGo bs next fuel i = none →
      ∀ j, i ≤ j → j < i + fuel →
        (bs.getD ((next + j) % bs.length) defaultBackend).alive = false := by
  intro fuel
  induction fuel with
  | zero => intro i _ j h1 h2; omega
  | succ n ih =>
    intro i h j h1 h2
    simp only [scanGo] at h
    split at h
    · exact absurd h (by simp)
    · rename_i hcond
      rcases Nat.eq_or_lt_of_le h1 with rfl | hlt
      · simpa [Backend.IsAlive] using hcond
      · exact ih (i + 1) h j hlt (by omega)

/-- Shifted reduction modulo `len` hits every residue below `len`. -/
theorem mod_shift_surj (len next k : Nat) (hlen : 0 < len) (hk : k < len) :
    ∃ j, j < len ∧ (next + j) % len = k := by
  refine ⟨(k + len - next % len) % len, Nat.mod_lt _ hlen, ?_⟩
  have hr : next % len < len := Nat.mod_lt _ hlen
  rw [Nat.add_mod_mod, ← Nat.mod_add_mod]
  have h3 : next % len + (k + len - next % len) = k + len := by omega
  rw [h3, Nat.add_mod_right]
  exact Nat.mod_eq_of_lt hk

/-- A full-length scan that finds nothing certifies that every backend
in the list is dead. -/
theorem scan_none_all_dead (bs : List Backend) (next : Nat)
    (h : scanGo bs next bs.length 0 = none) :
    ∀ b ∈ bs, b.alive = false := by
  intro b hb
  rcases List.mem_iff_get.mp hb with ⟨⟨n, hn⟩, rfl⟩
  rcases mod_shift_surj bs.length next n (by omega) hn with ⟨j, hj, hjk⟩
  have hdead := scanGo_none bs next bs.length 0 h j (Nat.zero_le j) (by omega)
  rw [hjk, List.getD_eq_getElem bs defaultBackend hn] at hdead
  rw [List.get_eq_getElem]
  exact hdead

/-- A scan whose very first position is alive succeeds immediately. -/
theorem scanGo_start_alive (bs : List Backend) (next fuel : Nat)
    (hfuel : fuel ≠ 0) (hnext : next < bs.length)
    (hal : (bs.getD next defaultBackend).alive = true) :
    scanGo bs next fuel 0 = some next := by
  obtain ⟨k, rfl⟩ := Nat.exists_eq_succ_of_ne_zero hfuel
  simp only [scanGo, Nat.add_zero]
  rw [Nat.mod_eq_of_lt hnext]
  rw [if_pos (show (bs.getD next defaultBackend).IsAlive = true from hal)]

/-- `NextIndex` on a non-empty pool: wrap-increment the counter and
reduce it modulo the pool size. -/
theorem NextIndex_pos (s : ServerPool) (hz : s.backends.length ≠ 0) :
    s.NextIndex = ((s.current + 1) % U64 % s.backends.length,
                   { s with current := (s.current + 1) % U64 }) := by
  simp [ServerPool.NextIndex, hz]

/-- Soundness of selection: a returned index is in range, the backend
there is alive, and the cursor is pinned to that index. -/
theorem getNextPeer_some_spec (s : ServerPool) (idx : Nat) (s1 : ServerPool)
    (h : s.GetNextPeer = (some idx, s1)) :
    idx < s.backends.length
    ∧ (s.backends.getD idx defaultBackend).alive = true
    ∧ s1 = { s with current := idx } := by
  by_cases hz : s.backends.length = 0
  · simp [ServerPool.GetNextPeer, hz] at h
  · simp only [ServerPool.GetNextPeer, ServerPool.NextIndex, hz, if_neg, ite_false] at h
    split at h
    · rename_i idx2 heq
      simp only [Prod.mk.injEq, Option.some.injEq] at h
      obtain ⟨rfl, rfl⟩ := h
      have hs := scanGo_some s.backends _ _ _ _ heq
      exact ⟨hs.1, hs.2, rfl⟩
    · simp at h

/-- Completeness of selection: `none` is only returned when every
backend in the pool is dead. -/
theorem getNextPeer_none_spec (s : ServerPool) (s1 : ServerPool)
    (h : s.GetNextPeer = (none, s1)) :
    ∀ b ∈ s.backends, b.alive = false := by
  by_cases hz : s.backends.length = 0
  · intro b hb
    rw [List.length_eq_zero] at hz
    rw [hz] at hb
    simp at hb
  · simp only [ServerPool.GetNextPeer, ServerPool.NextIndex, hz, if_neg, ite_false] at h
    split at h
    · simp at h
    · rename_i heq
      exact scan_none_all_dead s.backends _ heq

/-- On a non-empty all-dead pool, selection returns `none` and only the
counter advance is visible in the state. -/
theorem getNextPeer_all_dead (s : ServerPool) (hz : s.backends.length ≠ 0)
    (hdead : ∀ b ∈ s.backends, b.alive = false) :
    s.GetNextPeer = (none, { s with current := (s.current + 1) % U64 }) := by
  have hd : ∀ n, (s.backends.getD n defaultBackend).alive = false :=
    fun n => getD_alive_false s.backends n hdead
  have hscan : ∀ fuel i,
      scanGo s.backends ((s.current + 1) % U64 % s.backends.length) fuel i = none := by
    intro fuel
    induction fuel with
    | zero => intro i; rfl
    | succ n ih =>
      intro i
      simp only [scanGo]
      split
      · rename_i hcond
        simp only [Backend.IsAlive] at hcond
        rw [hd] at hcond
        exact Bool.noConfusion hcond
      · exact ih (i + 1)
  simp only [ServerPool.GetNextPeer, ServerPool.NextIndex, hz, if_neg, ite_false]
  rw [hscan]

/-- On a non-empty all-alive pool, selection returns exactly the
wrap-incremented counter reduced modulo the pool size, and pins the
counter there. -/
theorem getNextPeer_all_alive (s : ServerPool) (hz : s.backends.length ≠ 0)
    (hal : ∀ b ∈ s.backends, b.alive = true) :
    s.GetNextPeer = (some ((s.current + 1) % U64 % s.backends.length),
                     { s with current := (s.current + 1) % U64 % s.backends.length }) := by
  have hpos : 0 < s.backends.length := Nat.pos_of_ne_zero hz
  have hnext : (s.current + 1) % U64 % s.backends.length < s.backends.length :=
    Nat.mod_lt _ hpos
  have hscan := scanGo_start_alive s.backends ((s.current + 1) % U64 % s.backends.length)
    s.backends.length hz hnext (hal _ (getD_mem _ _ hnext))
  simp only [ServerPool.GetNextPeer, ServerPool.NextIndex, hz, if_neg, ite_false]
  rw [hscan]

/-- `forwardTo` delivers the transport outcome unchanged. -/
theorem forwardTo_fst (s : ServerPool) (idx : Nat) (r : RTResult) :
    (s.forwardTo idx r).1 = r := by
  simp [ServerPool.forwardTo, RoundTrip_fst]

/-- A handler iteration that selects a peer forwards once and returns. -/
theorem dispatchGo_select_forward (fwd : Nat → RTResult) (fuel : Nat)
    (s s1 : ServerPool) (idx sel fwds : Nat)
    (hsel : s.GetNextPeer = (some idx, s1)) :
    dispatchGo fwd (fuel + 1) s sel fwds
      = ({ served := Served.proxied idx (fwd idx),
           backendHeader := some ((s1.backends.getD idx defaultBackend).url),
           selections := sel + 1, forwards := fwds + 1 },
         (s1.forwardTo idx (fwd idx)).2) := by
  have hs := getNextPeer_some_spec s idx s1 hsel
  have halive : (s1.backends.getD idx defaultBackend).IsAlive = true := by
    rw [hs.2.2]
    exact hs.2.1
  simp only [dispatchGo, hsel, halive, if_true, forwardTo_fst]

/-- A handler iteration with no candidate and attempts remaining loops
back to selection. -/
theorem dispatchGo_none_step (fwd : Nat → RTResult) (fuel : Nat) (s s1 : ServerPool)
    (sel fwds : Nat) (hsel : s.GetNextPeer = (none, s1)) (hf : 0 < fuel) :
    dispatchGo fwd (fuel + 1) s sel fwds = dispatchGo fwd fuel s1 (sel + 1) fwds := by
  simp only [dispatchGo, hsel, hf, if_true]

/-- The last handler iteration with no candidate answers 503. -/
theorem dispatchGo_none_last (fwd : Nat → RTResult) (s s1 : ServerPool)
    (sel fwds : Nat) (hsel : s.GetNextPeer = (none, s1)) :
    dispatchGo fwd (0 + 1) s sel fwds
      = ({ served := Served.unavailable, backendHeader := none,
           selections := sel + 1, forwards := fwds }, s1) := by
  simp only [dispatchGo, hsel, Nat.lt_irrefl, ite_false]

/-- Trajectory of consecutive selections on an all-alive pool whose
cursor is already pinned below the pool size: call `k` (zero-based)
returns index `(current + 1 + k) mod N`. -/
theorem selectRun_pinned (N : Nat) (hN : 0 < N) (hU : N < U64) :
    ∀ (n : Nat) (s : ServerPool), s.backends.length = N → s.current < N →
      (∀ b ∈ s.backends, b.alive = true) →
      (selectRun s n).1 = (List.range n).map (fun k => some ((s.current + 1 + k) % N)) := by
  intro n
  induction n with
  | zero => intro s _ _ _; simp [selectRun]
  | succ m ih =>
    intro s hlen hcur hal
    have hz : s.backends.length ≠ 0 := by omega
    have hstep := getNextPeer_all_alive s hz hal
    have hc1 : (s.current + 1) % U64 = s.current + 1 := by
      have hNU : N < U64 := hU
      exact Nat.mod_eq_of_lt (by omega)
    rw [hlen, hc1] at hstep
    have ihres : (selectRun { backends := s.backends, current := (s.current + 1) % N } m).1
        = (List.range m).map (fun k => some (((s.current + 1) % N + 1 + k) % N)) :=
      ih { backends := s.backends, current := (s.current + 1) % N } hlen
        (Nat.mod_lt _ hN) hal
    simp only [selectRun, hstep]
    rw [ihres, List.range_succ_eq_map, List.map_cons, List.map_map]
    have hfe : ((fun k => some ((s.current + 1 + k) % N)) ∘ Nat.succ)
        = fun k => some (((s.current + 1) % N + 1 + k) % N) := by
      funext k
      simp only [Function.comp_apply, Nat.succ_eq_add_one]
      congr 1
      have h1 : (s.current + 1) % N + 1 + k = (s.current + 1) % N + (1 + k) := by omega
      have h2 : s.current + 1 + (k + 1) = s.current + 1 + (1 + k) := by omega
      rw [h1, h2, Nat.mod_add_mod]
    rw [hfe]

/-- An all-dead pool lets every handler attempt select nothing, so the
whole budget is spent on selections and the request ends in a 503 with
no forward performed. -/
theorem dispatchGo_all_dead (fwd : Nat → RTResult) :
    ∀ (fuel : Nat) (s : ServerPool) (sel fwds : Nat), s.backends.length ≠ 0 →
      (∀ b ∈ s.backends, b.alive = false) → 0 < fuel →
      (dispatchGo fwd fuel s sel fwds).1
        = { served := Served.unavailable, backendHeader := none,
            selections := sel + fuel, forwards := fwds } := by
  intro fuel
  induction fuel with
  | zero => intro s sel fwds _ _ h0; omega
  | succ n ih =>
    intro s sel fwds hz hdead _
    have h1 := getNextPeer_all_dead s hz hdead
    by_cases hn : 0 < n
    · rw [dispatchGo_none_step fwd n s _ sel fwds h1 hn]
      rw [ih { s with current := (s.current + 1) % U64 } (sel + 1) fwds hz hdead hn]
      rw [(show sel + 1 + n = sel + (n + 1) by omega)]
    · have hn0 : n = 0 := by omega
      subst hn0
      rw [dispatchGo_none_last fwd s _ sel fwds h1]

/-- Helper: pools built by the startup loop from an all-alive
accumulator contain only alive backends. -/
theorem buildPool_alive (parse : String → Option String) :
    ∀ (urls : List String) (acc p : ServerPool),
      (∀ b ∈ acc.backends, b.alive = true) →
      buildPool parse urls acc = some p →
      ∀ b ∈ p.backends, b.alive = true := by
  intro urls
  induction urls with
  | nil =>
    intro acc p hacc h
    simp only [buildPool, Option.some.injEq] at h
    subst h
    exact hacc
  | cons u rest ih =>
    intro acc p hacc h
    simp only [buildPool] at h
    split at h
    · exact Option.noConfusion h
    · rename_i b hb
      refine ih _ p ?_ h
      intro b2 hb2
      simp only [ServerPool.AddBackend, List.mem_append, List.mem_singleton] at hb2
      rcases hb2 with hb2 | rfl
      · exact hacc b2 hb2
      · unfold NewBackend at hb
        split at hb
        · exact Option.noConfusion hb
        · simp only [Option.some.injEq] at hb
          rw [← hb]

/-- In a duplicate-free list, a member occurs exactly once (stated for
any lawful boolean equality). -/
theorem count_one_of_nodup_mem {α : Type} [BEq α] [LawfulBEq α] :
    ∀ (l : List α) (a : α), l.Nodup → a ∈ l → l.count a = 1 := by
  intro l
  induction l with
  | nil => intro a _ h; simp at h
  | cons b t ih =>
    intro a hnd hmem
    rw [List.count_cons]
    rcases List.mem_cons.mp hmem with rfl | hmt
    · have hbt : a ∉ t := (List.nodup_cons.mp hnd).1
      rw [List.count_eq_zero.mpr hbt]
      simp
    · rw [ih a (List.nodup_cons.mp hnd).2 hmt]
      have hab : ¬ (b == a) = true := by
        intro hb
        have hba : b = a := eq_of_beq hb
        subst hba
        exact (List.nodup_cons.mp hnd).1 hmt
      simp [hab]

/-! ### Test fixtures -/

/-- The three configured backends, all alive, cursor at 0. -/
def pool3 : ServerPool :=
  { backends := [{ url := "http://localhost:8081", alive := true },
                 { url := "http://localhost:8082", alive := true },
                 { url := "http://localhost:8083", alive := true }],
    current := 0 }

/-- The same three backends, all marked DOWN. -/
def pool3Dead : ServerPool :=
  { backends := [{ url := "http://localhost:8081", alive := false },
                 { url := "http://localhost:8082", alive := false },
                 { url := "http://localhost:8083", alive := false }],
    current := 0 }

/-- All DOWN except the third backend. -/
def pool3OneAlive : ServerPool :=
  { backends := [{ url := "http://localhost:8081", alive := false },
                 { url := "http://localhost:8082", alive := false },
                 { url := "http://localhost:8083", alive := true }],
    current := 0 }

/-- Transport oracle under which the first backend selected from
`pool3` (index 1, since the cursor starts at 0) fails at transport
level and every other backend answers 200. -/
def fwdFirstFails : Nat → RTResult :=
  fun idx => if idx = 1 then RTResult.transportError else RTResult.response 200

/-! ### Claims -/

/-- C1: the claim says a transport-level forward failure consumes an
attempt and the dispatcher loops back to select a new candidate, so the
3-alive-backends scenario ends after exactly 2 forward attempts with
the second backend's response headers.  The code does not do this: the
handler returns unconditionally right after `peer.ReverseProxy.ServeHTTP`,
so the scenario performs exactly ONE forward, delivers the failed
exchange of the first selected backend (its URL in `X-Backend-Server`),
and only marks that backend DOWN.  This theorem evaluates the handler
at the failing input. -/
theorem C1_transport_failure_single_forward :
    (handleRequest fwdFirstFails pool3).1
      = { served := Served.proxied 1 RTResult.transportError,
          backendHeader := some "http://localhost:8082",
          selections := 1, forwards := 1 }
    ∧ (handleRequest fwdFirstFails pool3).2
      = { backends := [{ url := "http://localhost:8081", alive := true },
                       { url := "http://localhost:8082", alive := false },
                       { url := "http://localhost:8083", alive := true }],
          current := 1 }
    ∧ (handleRequest fwdFirstFails pool3).1.forwards ≠ 2 := by
  decide

/-- C2: liveness-aware selection — `GetNextPeer` returns a backend only
if that backend is alive at the time of the check; it returns `none`
when no backend in the pool is alive; and whenever at least one backend
is alive it returns a live candidate, never `none`. -/
theorem C2_selection_liveness (s : ServerPool) :
    (∀ idx s1, s.GetNextPeer = (some idx, s1) →
        (s.backends.getD idx defaultBackend).IsAlive = true)
    ∧ ((∀ b ∈ s.backends, b.IsAlive = false) → (s.GetNextPeer).1 = none)
    ∧ ((∃ b ∈ s.backends, b.IsAlive = true) →
        ∃ idx s1, s.GetNextPeer = (some idx, s1)) := by
  refine ⟨?_, ?_, ?_⟩
  · intro idx s1 h
    exact (getNextPeer_some_spec s idx s1 h).2.1
  · intro hdead
    rcases hgp : s.GetNextPeer with ⟨fst, s1⟩
    cases fst with
    | none => rfl
    | some idx =>
      have hs := getNextPeer_some_spec s idx s1 hgp
      have hd : (s.backends.getD idx defaultBackend).alive = false :=
        hdead _ (getD_mem _ _ hs.1)
      rw [hd] at hs
      exact Bool.noConfusion hs.2.1
  · intro hex
    rcases hgp : s.GetNextPeer with ⟨fst, s1⟩
    cases fst with
    | some idx => exact ⟨idx, s1, rfl⟩
    | none =>
      obtain ⟨b, hb, hba⟩ := hex
      have hd : b.alive = false := getNextPeer_none_spec s s1 hgp b hb
      have hba2 : b.alive = true := hba
      rw [hd] at hba2
      exact Bool.noConfusion hba2

/-- Witness for C2 at concrete pools: an all-alive pool, an all-dead
pool, and a pool with one live backend. -/
theorem C2_selection_liveness_witness :
    (pool3.backends.getD 1 defaultBackend).IsAlive = true
    ∧ (pool3Dead.GetNextPeer).1 = none
    ∧ ∃ idx s1, pool3OneAlive.GetNextPeer = (some idx, s1) := by
  refine ⟨?_, ?_, ?_⟩
  · exact (C2_selection_liveness pool3).1 1
      { backends := pool3.backends, current := 1 } (by decide)
  · exact (C2_selection_liveness pool3Dead).2.1 (by decide)
  · exact (C2_selection_liveness pool3OneAlive).2.2 (by decide)

/-- C3: round-robin exactness with cursor pinning — on an all-alive pool
of size `N` (with `N` below the `uint64` modulus, as every Go slice
length is), `N` consecutive `GetNextPeer` calls return the `N` indices
in cyclic order starting just after the initial cursor — each backend
exactly once — because each successful call pins the cursor to the index
it returned. -/
theorem C3_round_robin_exact (s : ServerPool) (N : Nat)
    (hlen : s.backends.length = N) (hN : 0 < N) (hU : N < U64)
    (hal : ∀ b ∈ s.backends, b.IsAlive = true) :
    ((selectRun s N).1
      = (List.range N).map
          (fun k => some (((s.current + 1) % U64 % N + k) % N)))
    ∧ (∀ j, j < N → ((selectRun s N).1.count (some j)) = 1) := by
  have hal2 : ∀ b ∈ s.backends, b.alive = true := hal
  obtain ⟨m, rfl⟩ := Nat.exists_eq_succ_of_ne_zero (by omega : N ≠ 0)
  have hz : s.backends.length ≠ 0 := by omega
  have hstep := getNextPeer_all_alive s hz hal2
  rw [hlen] at hstep
  have hc1lt : (s.current + 1) % U64 % (m + 1) < m + 1 :=
    Nat.mod_lt _ (Nat.succ_pos m)
  have hpin : (selectRun { backends := s.backends, current := (s.current + 1) % U64 % (m + 1) } m).1
      = (List.range m).map
          (fun k => some ((((s.current + 1) % U64 % (m + 1)) + 1 + k) % (m + 1))) :=
    selectRun_pinned (m + 1) (Nat.succ_pos m) hU m
      { backends := s.backends, current := (s.current + 1) % U64 % (m + 1) }
      hlen hc1lt hal2
  have hlist : (selectRun s (m + 1)).1
      = some ((s.current + 1) % U64 % (m + 1))
        :: (List.range m).map
            (fun k => some ((((s.current + 1) % U64 % (m + 1)) + 1 + k) % (m + 1))) := by
    simp only [selectRun, hstep]
    rw [hpin]
  have hmap : (List.range (m + 1)).map
        (fun k => some (((s.current + 1) % U64 % (m + 1) + k) % (m + 1)))
      = some ((s.current + 1) % U64 % (m + 1))
        :: (List.range m).map
            (fun k => some ((((s.current + 1) % U64 % (m + 1)) + 1 + k) % (m + 1))) := by
    rw [List.range_succ_eq_map, List.map_cons, List.map_map]
    have hfe : ((fun k => some (((s.current + 1) % U64 % (m + 1) + k) % (m + 1)))
          ∘ Nat.succ)
        = fun k => some ((((s.current + 1) % U64 % (m + 1)) + 1 + k) % (m + 1)) := by
      funext k
      simp only [Function.comp_apply, Nat.succ_eq_add_one]
      have h1 : (s.current + 1) % U64 % (m + 1) + (k + 1)
          = (s.current + 1) % U64 % (m + 1) + 1 + k := by omega
      rw [h1]
    rw [hfe]
    simp [Nat.mod_eq_of_lt hc1lt]
  constructor
  · rw [hlist, hmap]
  · intro j hj
    rw [hlist, ← hmap]
    apply count_one_of_nodup_mem
    · apply List.Nodup.map_on _ (List.nodup_range (m + 1))
      intro x hx y hy hxy
      rw [List.mem_range] at hx hy
      have hxy2 : ((s.current + 1) % U64 % (m + 1) + x) % (m + 1)
          = ((s.current + 1) % U64 % (m + 1) + y) % (m + 1) := Option.some.inj hxy
      have hmq : x % (m + 1) = y % (m + 1) :=
        Nat.ModEq.add_left_cancel' ((s.current + 1) % U64 % (m + 1)) hxy2
      rwa [Nat.mod_eq_of_lt hx, Nat.mod_eq_of_lt hy] at hmq
    · rcases mod_shift_surj (m + 1) ((s.current + 1) % U64 % (m + 1)) j
          (Nat.succ_pos m) hj with ⟨k, hk, hkj⟩
      exact List.mem_map.mpr ⟨k, List.mem_range.mpr hk, congrArg some hkj⟩

/-- Witness for C3 on the concrete all-alive three-backend pool. -/
theorem C3_round_robin_exact_witness :
    ((selectRun pool3 3).1
      = (List.range 3).map
          (fun k => some (((pool3.current + 1) % U64 % 3 + k) % 3)))
    ∧ ((selectRun pool3 3).1.count (some 0)) = 1 := by
  have h := C3_round_robin_exact pool3 3 rfl (by decide) (by decide) (by decide)
  exact ⟨h.1, h.2 0 (by decide)⟩

/-- C4 counterexample: `AddBackend` performs no duplicate check — adding
the same endpoint URL twice yields a pool whose backend URLs are not
pairwise distinct, refuting "the pool never contains two backends with
equal endpoint URLs". -/
theorem C4_duplicate_add_cex :
    ((({ backends := [], current := 0 } : ServerPool).AddBackend
        { url := "http://localhost:8081", alive := true }).AddBackend
        { url := "http://localhost:8081", alive := true }).backends.map Backend.url
      = ["http://localhost:8081", "http://localhost:8081"]
    ∧ ¬ (((({ backends := [], current := 0 } : ServerPool).AddBackend
        { url := "http://localhost:8081", alive := true }).AddBackend
        { url := "http://localhost:8081", alive := true }).backends.map Backend.url).Nodup := by
  decide

/-- C4 amended: `AddBackend` appends unconditionally with no duplicate
check, so adding a backend whose endpoint URL is already registered
yields a pool holding that URL at least twice. -/
theorem C4_add_appends_no_dedup (s : ServerPool) (b : Backend)
    (h : b.url ∈ s.backends.map Backend.url) :
    (s.AddBackend b).backends = s.backends ++ [b]
    ∧ 2 ≤ ((s.AddBackend b).backends.map Backend.url).count b.url := by
  refine ⟨rfl, ?_⟩
  have h1 : (s.AddBackend b).backends.map Backend.url
      = s.backends.map Backend.url ++ [b.url] := by
    simp [ServerPool.AddBackend]
  rw [h1, List.count_append]
  have h2 : 0 < (s.backends.map Backend.url).count b.url :=
    List.count_pos_iff.mpr h
  have h3 : List.count b.url [b.url] = 1 := by simp
  omega

/-- Witness for the amended C4: re-adding the first configured endpoint
to `pool3` leaves its URL in the registry twice. -/
theorem C4_add_appends_no_dedup_witness :
    (pool3.AddBackend { url := "http://localhost:8081", alive := true }).backends
      = pool3.backends ++ [{ url := "http://localhost:8081", alive := true }]
    ∧ 2 ≤ ((pool3.AddBackend
        { url := "http://localhost:8081", alive := true }).backends.map
          Backend.url).count "http://localhost:8081" :=
  C4_add_appends_no_dedup pool3 { url := "http://localhost:8081", alive := true }
    (by decide)

/-- C5: the health checker's per-backend pass writes the liveness and
emits a transition notification exactly when the probe result differs
from the current liveness; when they agree nothing is written and
nothing is emitted. -/
theorem C5_health_transition (b : Backend) (probeResult : Bool) :
    (probeResult ≠ b.IsAlive →
      checkHealthStep b probeResult
        = (b.SetAlive probeResult,
           some (if probeResult then Notification.recovered
                 else Notification.failedHealthCheck)))
    ∧ (probeResult = b.IsAlive → checkHealthStep b probeResult = (b, none)) := by
  constructor
  · intro h
    simp [checkHealthStep, h]
  · intro h
    simp [checkHealthStep, h]

/-- Witness for C5: a DOWN backend probed UP yields a recovery
notification; an UP backend probed UP yields no write and no
notification. -/
theorem C5_health_transition_witness :
    checkHealthStep { url := "http://localhost:8081", alive := false } true
      = ({ url := "http://localhost:8081", alive := true }, some Notification.recovered)
    ∧ checkHealthStep { url := "http://localhost:8081", alive := true } true
      = ({ url := "http://localhost:8081", alive := true }, none) :=
  ⟨(C5_health_transition { url := "http://localhost:8081", alive := false } true).1
      (by decide),
   (C5_health_transition { url := "http://localhost:8081", alive := true } true).2 rfl⟩

/-- C6: passive 5xx rule — when an exchange completes with HTTP status
at least 500, the passive transport marks the backend DOWN but returns
the response unchanged and without error; and a dispatcher whose
selected candidate forwards such a response delivers it to the client
after exactly one forward (no retry), the only state change being that
backend's liveness write. -/
theorem C6_passive_5xx (b : Backend) (status : Nat) (h5 : 500 ≤ status) :
    RoundTrip b (RTResult.response status)
      = (RTResult.response status, b.SetAlive false)
    ∧ ∀ (fwd : Nat → RTResult) (s s1 : ServerPool) (idx : Nat),
        s.GetNextPeer = (some idx, s1) → fwd idx = RTResult.response status →
        (handleRequest fwd s).1.served = Served.proxied idx (RTResult.response status)
        ∧ (handleRequest fwd s).1.forwards = 1
        ∧ (handleRequest fwd s).2
            = { s1 with backends := s1.backends.set idx ((s1.backends.getD idx defaultBackend).SetAlive false) } := by
  constructor
  · simp [RoundTrip, h5]
  · intro fwd s s1 idx hsel hfwd
    have hstep := dispatchGo_select_forward fwd 2 s s1 idx 0 0 hsel
    have hh : handleRequest fwd s = dispatchGo fwd (2 + 1) s 0 0 := rfl
    rw [hh, hstep]
    refine ⟨?_, rfl, ?_⟩
    · simp [hfwd]
    · simp [ServerPool.forwardTo, hfwd, RoundTrip, h5]

/-- Witness for C6: a 500 response through the passive transport, and a
full dispatch on `pool3` where every backend answers 500. -/
theorem C6_passive_5xx_witness :
    RoundTrip { url := "http://localhost:8081", alive := true } (RTResult.response 500)
      = (RTResult.response 500, { url := "http://localhost:8081", alive := false })
    ∧ (handleRequest (fun _ => RTResult.response 500) pool3).1.served
        = Served.proxied 1 (RTResult.response 500) := by
  have h := C6_passive_5xx { url := "http://localhost:8081", alive := true } 500 (by decide)
  refine ⟨h.1, ?_⟩
  exact (h.2 (fun _ => RTResult.response 500) pool3
    { backends := pool3.backends, current := 1 } 1 (by decide) rfl).1

/-- C7: with a 3-backend pool entirely DOWN and maxAttempts = 3, the
handler answers service-unavailable after at most 3 selection attempts
and performs zero forward calls. -/
theorem C7_all_down_503 (s : ServerPool) (fwd : Nat → RTResult)
    (hlen : s.backends.length = 3)
    (hdead : ∀ b ∈ s.backends, b.IsAlive = false) :
    (handleRequest fwd s).1.served = Served.unavailable
    ∧ (handleRequest fwd s).1.selections ≤ 3
    ∧ (handleRequest fwd s).1.forwards = 0 := by
  have hz : s.backends.length ≠ 0 := by omega
  have h := dispatchGo_all_dead fwd 3 s 0 0 hz hdead (by omega)
  have hh : (handleRequest fwd s).1 = (dispatchGo fwd 3 s 0 0).1 := rfl
  rw [hh, h]
  exact ⟨rfl, by decide, rfl⟩

/-- Witness for C7 on the concrete all-DOWN pool. -/
theorem C7_all_down_503_witness :
    (handleRequest (fun _ => RTResult.response 200) pool3Dead).1.served
      = Served.unavailable
    ∧ (handleRequest (fun _ => RTResult.response 200) pool3Dead).1.selections ≤ 3
    ∧ (handleRequest (fun _ => RTResult.response 200) pool3Dead).1.forwards = 0 :=
  C7_all_down_503 pool3Dead (fun _ => RTResult.response 200) (by decide) (by decide)

/-- C8: selection on an empty pool returns `none` and leaves the state
untouched; the cursor advance guards the pool size and returns index 0
without any modulo when the size is zero. -/
theorem C8_empty_pool_select (s : ServerPool) (h : s.backends = []) :
    s.GetNextPeer = (none, s) ∧ s.NextIndex = (0, s) := by
  constructor
  · simp [ServerPool.GetNextPeer, h]
  · simp [ServerPool.NextIndex, h]

/-- Witness for C8 at the literal empty pool. -/
theorem C8_empty_pool_select_witness :
    ServerPool.GetNextPeer { backends := [], current := 0 }
      = (none, { backends := [], current := 0 })
    ∧ ServerPool.NextIndex { backends := [], current := 0 }
      = (0, { backends := [], current := 0 }) :=
  C8_empty_pool_select { backends := [], current := 0 } rfl

/-- C9: `SetAlive false` on an already-DOWN backend is the identity —
liveness stays false and every other field (the endpoint URL) is
unchanged. -/
theorem C9_setAlive_false_idempotent (b : Backend) (h : b.IsAlive = false) :
    b.SetAlive false = b := by
  cases b with
  | mk url alive =>
    simp only [Backend.IsAlive] at h
    simp [Backend.SetAlive, h]

/-- Witness for C9 at a concrete DOWN backend. -/
theorem C9_setAlive_false_idempotent_witness :
    Backend.SetAlive { url := "http://localhost:8081", alive := false } false
      = { url := "http://localhost:8081", alive := false } :=
  C9_setAlive_false_idempotent { url := "http://localhost:8081", alive := false } rfl

/-- C10: every backend successfully constructed by `NewBackend` starts
with liveness true, and the pool `main` populates at startup therefore
holds only alive (selection-eligible) backends. -/
theorem C10_initial_liveness :
    (∀ (parse : String → Option String) (urlStr : String) (b : Backend),
        NewBackend parse urlStr = some b → b.IsAlive = true)
    ∧ (∀ (parse : String → Option String) (p : ServerPool),
        initialPool parse = some p → ∀ b ∈ p.backends, b.IsAlive = true) := by
  constructor
  · intro parse u b h
    unfold NewBackend at h
    split at h
    · exact Option.noConfusion h
    · simp only [Option.some.injEq] at h
      rw [← h]
      rfl
  · intro parse p h
    exact buildPool_alive parse backendURLs { backends := [], current := 0 } p
      (by simp) h

/-- Witness for C10: with a parse oracle that accepts every URL string,
a constructed backend is alive and so is a member of the startup pool. -/
theorem C10_initial_liveness_witness :
    Backend.IsAlive { url := "http://localhost:8081", alive := true } = true
    ∧ Backend.IsAlive { url := "http://localhost:8082", alive := true } = true :=
  ⟨C10_initial_liveness.1 some "http://localhost:8081"
      { url := "http://localhost:8081", alive := true } rfl,
   C10_initial_liveness.2 some pool3 rfl
      { url := "http://localhost:8082", alive := true } (by decide)⟩

end Nexus
